import Mathlib

/-!
Verification of the block-removal core of `remove_sync_functions.py`
(the brace-counting line-deletion pass) from the letta-obsidian repository.

The script reads `main.ts` into `lines`, keeps a parallel boolean list
`keep_lines`, and for each function name in its hardcoded list runs one
forward pass that marks the lines of that function's block as dropped;
finally it writes back the lines whose mark is still true.  The embedding
below reproduces that loop faithfully: `markPass` is the per-identifier
marking loop, `keepMask` is the fold of those passes over the identifier
list starting from the all-true mask, and `writeBack` is the final
filtered write.  Strings are Lean `String`s; Python's substring test
`pat in line` is `containsSub`, and `line.count('{')` is `countChar '{'`.
-/

namespace LettaObsidian

/-- Number of occurrences of character `c` in string `s`
(Python `line.count(c)`). -/
def countChar (c : Char) (s : String) : Nat := s.data.count c

/-- `subList pat s` is true iff `pat` occurs as a contiguous run inside `s`. -/
def subList : List Char → List Char → Bool
  | pat, [] => pat.isEmpty
  | pat, c :: rest => pat.isPrefixOf (c :: rest) || subList pat rest

/-- Substring containment on strings (Python's `pat in line`). -/
def containsSub (pat s : String) : Bool := subList pat.data s.data

/-- The opening-line test of the marking loop:
`f'\tasync {func_name}(' in line`. -/
def isOpen (fn line : String) : Bool :=
  containsSub ("\tasync " ++ fn ++ "(") line

/-- Signed brace contribution of one line:
`line.count('{') - line.count('}')`. -/
def lineDelta (line : String) : Int :=
  (countChar '\x7b' line : Int) - (countChar '\x7d' line : Int)

/-- The end-of-block test applied after updating the count:
`brace_count == 0 and '\t}' in line`. -/
def closesAt (bc : Int) (line : String) : Bool :=
  bc == 0 && containsSub "\t\x7d" line

/-- One marking pass of the script for a single function name.
The input pairs each line with its current keep-mark; the output is the
updated mark list.  State `inF` is Python's `in_function`, `bc` is
`brace_count`.  The opening-line test runs first and, when it fires,
re-enters the block with `brace_count = 0` and `continue` (the opening
line's own braces are never counted); otherwise, inside a block the line
is dropped, the count updated, and the block ends when the updated count
is zero and the line contains `"\t}"`. -/
def markPass (fn : String) : Bool → Int → List (String × Bool) → List Bool
  | _, _, [] => []
  | inF, bc, (l, k) :: rest =>
    if isOpen fn l then
      false :: markPass fn true 0 rest
    else if inF then
      false ::
        markPass fn (!(closesAt (bc + lineDelta l) l)) (bc + lineDelta l) rest
    else
      k :: markPass fn inF bc rest

/-- The `(in_function, brace_count)` state of one marking pass after
consuming a list of lines. -/
def passState (fn : String) : Bool → Int → List String → Bool × Int
  | inF, bc, [] => (inF, bc)
  | inF, bc, l :: rest =>
    if isOpen fn l then passState fn true 0 rest
    else if inF then
      passState fn (!(closesAt (bc + lineDelta l) l)) (bc + lineDelta l) rest
    else passState fn inF bc rest

/-- `neverCloses fn bc ls` holds when, entered in-block with count `bc`,
the pass never leaves the block while consuming `ls`: no line re-matches
the opening pattern and then closes later, and no line brings the running
count to zero while containing `"\t}"`. -/
def neverCloses (fn : String) : Int → List String → Bool
  | _, [] => true
  | bc, l :: rest =>
    if isOpen fn l then neverCloses fn 0 rest
    else
      !(closesAt (bc + lineDelta l) l) &&
        neverCloses fn (bc + lineDelta l) rest

/-- The keep-mask after running one marking pass per identifier, in
order, starting from the all-true mask (`keep_lines = [True] * len(lines)`
then the `for func_name in functions_to_remove` loop). -/
def keepMask (fns : List String) (lines : List String) : List Bool :=
  fns.foldl (fun ks fn => markPass fn false 0 (lines.zip ks))
    (List.replicate lines.length true)

/-- The final write-back: keep exactly the lines whose mark is true, in
order (`for i, line in enumerate(lines): if keep_lines[i]: f.write(line)`). -/
def writeBack (ls : List String) (ks : List Bool) : List String :=
  ((ls.zip ks).filter (fun p => p.2)).map (fun p => p.1)

/-- The block-removal core: mark every requested identifier's lines over
the original buffer, then write back the kept lines. -/
def remove_blocks (lines : List String) (identifiers : List String) :
    List String :=
  writeBack lines (keepMask identifiers lines)

/-- The script's hardcoded identifier list. -/
def functions_to_remove : List String :=
  ["syncVaultToLetta", "syncCurrentFile", "onFileChange", "onFileDelete",
   "openFileInAgent", "closeFileInAgent", "closeAllFilesInAgent"]

/-! ### Structural lemmas about one marking pass -/

lemma markPass_length (fn : String) :
    ∀ (ps : List (String × Bool)) (inF : Bool) (bc : Int),
      (markPass fn inF bc ps).length = ps.length := by
  intro ps
  induction ps with
  | nil => intro inF bc; rfl
  | cons p rest ih =>
    intro inF bc
    obtain ⟨l, k⟩ := p
    by_cases ho : isOpen fn l = true
    · simp [markPass, ho, ih]
    · by_cases hf : inF = true
      · simp [markPass, ho, hf, ih]
      · have hf' : inF = false := by cases inF <;> simp_all
        simp [markPass, ho, hf', ih]

lemma markPass_zip_length (fn : String) (ls : List String) (ks : List Bool)
    (inF : Bool) (bc : Int) (h : ks.length = ls.length) :
    (markPass fn inF bc (ls.zip ks)).length = ls.length := by
  rw [markPass_length, List.length_zip, h, Nat.min_self]

lemma markPass_append (fn : String) (ls₁ : List String) :
    ∀ (ks₁ : List Bool) (ls₂ : List String) (ks₂ : List Bool)
      (inF : Bool) (bc : Int), ks₁.length = ls₁.length →
      markPass fn inF bc ((ls₁ ++ ls₂).zip (ks₁ ++ ks₂)) =
        markPass fn inF bc (ls₁.zip ks₁) ++
          markPass fn (passState fn inF bc ls₁).1 (passState fn inF bc ls₁).2
            (ls₂.zip ks₂) := by
  induction ls₁ with
  | nil =>
    intro ks₁ ls₂ ks₂ inF bc h
    have hk : ks₁ = [] := List.length_eq_zero.mp (by simpa using h)
    subst hk; rfl
  | cons l ls₁ ih =>
    intro ks₁ ls₂ ks₂ inF bc h
    cases ks₁ with
    | nil => simp at h
    | cons k ks₁ =>
      have h' : ks₁.length = ls₁.length := by simpa using h
      rw [List.cons_append, List.cons_append, List.zip_cons_cons,
        List.zip_cons_cons]
      by_cases ho : isOpen fn l = true
      · simp only [markPass, passState, if_pos ho]
        rw [ih ks₁ ls₂ ks₂ true 0 h']
        rfl
      · by_cases hf : inF = true
        · simp only [markPass, passState, if_neg ho, if_pos hf]
          rw [ih ks₁ ls₂ ks₂ _ _ h']
          rfl
        · simp only [markPass, passState, if_neg ho, if_neg hf]
          rw [ih ks₁ ls₂ ks₂ inF bc h']
          rfl

lemma markPass_neverCloses (fn : String) (ls : List String) :
    ∀ (ks : List Bool) (bc : Int),
      neverCloses fn bc ls = true →
      markPass fn true bc (ls.zip ks) =
        List.replicate (ls.zip ks).length false := by
  induction ls with
  | nil => intro ks bc _; rfl
  | cons l ls ih =>
    intro ks bc hnc
    cases ks with
    | nil => rfl
    | cons k ks =>
      rw [List.zip_cons_cons]
      by_cases ho : isOpen fn l = true
      · have hnc' : neverCloses fn 0 ls = true := by
          simpa [neverCloses, if_pos ho] using hnc
        simp only [markPass, if_pos ho]
        rw [ih ks 0 hnc']
        rfl
      · simp only [neverCloses, if_neg ho, Bool.and_eq_true,
          Bool.not_eq_true'] at hnc
        simp only [markPass, if_neg ho, if_pos rfl]
        rw [hnc.1, Bool.not_false, ih ks (bc + lineDelta l) hnc.2]
        rfl

lemma markPass_id (fn : String) (ls : List String) :
    ∀ (ks : List Bool) (bc : Int),
      (∀ l ∈ ls, isOpen fn l = false) →
      markPass fn false bc (ls.zip ks) = ks.take ls.length := by
  induction ls with
  | nil => intro ks bc _; simp [markPass]
  | cons l ls ih =>
    intro ks bc hno
    cases ks with
    | nil => simp [markPass]
    | cons k ks =>
      have ho : isOpen fn l = false := hno l (by simp)
      have hno' : ∀ x ∈ ls, isOpen fn x = false := fun x hx =>
        hno x (by simp [hx])
      rw [List.zip_cons_cons]
      simp only [markPass, if_neg (by simp [ho] : ¬isOpen fn l = true),
        if_neg (by simp : ¬false = true)]
      rw [ih ks bc hno']
      rfl

/-! ### Structural lemmas about the write-back -/

lemma writeBack_cons_false (l : String) (ls : List String) (ks : List Bool) :
    writeBack (l :: ls) (false :: ks) = writeBack ls ks := by
  simp [writeBack, List.zip_cons_cons, List.filter_cons]

lemma writeBack_cons_true (l : String) (ls : List String) (ks : List Bool) :
    writeBack (l :: ls) (true :: ks) = l :: writeBack ls ks := by
  simp [writeBack, List.zip_cons_cons, List.filter_cons]

lemma writeBack_append (ls₁ : List String) :
    ∀ (ks₁ : List Bool) (ls₂ : List String) (ks₂ : List Bool),
      ks₁.length = ls₁.length →
      writeBack (ls₁ ++ ls₂) (ks₁ ++ ks₂) =
        writeBack ls₁ ks₁ ++ writeBack ls₂ ks₂ := by
  induction ls₁ with
  | nil =>
    intro ks₁ ls₂ ks₂ h
    have hk : ks₁ = [] := List.length_eq_zero.mp (by simpa using h)
    subst hk; rfl
  | cons l ls₁ ih =>
    intro ks₁ ls₂ ks₂ h
    cases ks₁ with
    | nil => simp at h
    | cons k ks₁ =>
      have h' : ks₁.length = ls₁.length := by simpa using h
      cases k with
      | false =>
        rw [List.cons_append, List.cons_append, writeBack_cons_false,
          writeBack_cons_false, ih ks₁ ls₂ ks₂ h']
      | true =>
        rw [List.cons_append, List.cons_append, writeBack_cons_true,
          writeBack_cons_true, ih ks₁ ls₂ ks₂ h', List.cons_append]

lemma writeBack_replicate_true (ls : List String) :
    writeBack ls (List.replicate ls.length true) = ls := by
  induction ls with
  | nil => rfl
  | cons l ls ih =>
    rw [List.length_cons, List.replicate_succ, writeBack_cons_true, ih]

lemma writeBack_replicate_false (ls : List String) (n : Nat) :
    writeBack ls (List.replicate n false) = [] := by
  induction ls generalizing n with
  | nil => rfl
  | cons l ls ih =>
    cases n with
    | zero => rfl
    | succ n =>
      rw [List.replicate_succ, writeBack_cons_false]
      exact ih n

lemma writeBack_sublist (ls : List String) :
    ∀ ks : List Bool, (writeBack ls ks).Sublist ls := by
  induction ls with
  | nil => intro ks; simp [writeBack]
  | cons l ls ih =>
    intro ks
    cases ks with
    | nil => exact List.nil_sublist _
    | cons k ks =>
      cases k with
      | false =>
        rw [writeBack_cons_false]
        exact (ih ks).cons l
      | true =>
        rw [writeBack_cons_true]
        exact (ih ks).cons₂ l

/-! ### Pointwise characterisation of the keep-mask

The branch taken by `markPass` at each line depends only on the line and
the running state, never on the incoming mark, so one pass over an
arbitrary incoming mask is the pointwise AND of that mask with the pass
run from the all-true mask. -/

/-- The mask a single pass computes from the all-true mask. -/
def pureMark (fn : String) (lines : List String) : List Bool :=
  markPass fn false 0 (lines.zip (List.replicate lines.length true))

lemma markPass_eq_zipWith (fn : String) (ls : List String) :
    ∀ (ks : List Bool) (inF : Bool) (bc : Int), ks.length = ls.length →
      markPass fn inF bc (ls.zip ks) =
        List.zipWith (fun k m => k && m) ks
          (markPass fn inF bc (ls.zip (List.replicate ls.length true))) := by
  induction ls with
  | nil =>
    intro ks inF bc h
    have hk : ks = [] := List.length_eq_zero.mp (by simpa using h)
    subst hk; rfl
  | cons l ls ih =>
    intro ks inF bc h
    cases ks with
    | nil => simp at h
    | cons k ks =>
      have h' : ks.length = ls.length := by simpa using h
      rw [List.length_cons, List.replicate_succ, List.zip_cons_cons,
        List.zip_cons_cons]
      by_cases ho : isOpen fn l = true
      · simp only [markPass, if_pos ho]
        rw [ih ks true 0 h', List.zipWith_cons_cons, Bool.and_false]
      · by_cases hf : inF = true
        · simp only [markPass, if_neg ho, if_pos hf]
          rw [ih ks _ _ h', List.zipWith_cons_cons, Bool.and_false]
        · simp only [markPass, if_neg ho, if_neg hf]
          rw [ih ks inF bc h', List.zipWith_cons_cons, Bool.and_true]

lemma pureMark_length (fn : String) (ls : List String) :
    (pureMark fn ls).length = ls.length := by
  unfold pureMark
  exact markPass_zip_length fn ls _ false 0 (List.length_replicate _ _)

lemma keepMask_singleton (a : String) (L : List String) :
    keepMask [a] L = pureMark a L := rfl

lemma keepMask_pair (a b : String) (L : List String) :
    keepMask [a, b] L =
      List.zipWith (fun k m => k && m) (pureMark a L) (pureMark b L) := by
  show markPass b false 0 (L.zip (pureMark a L)) = _
  rw [markPass_eq_zipWith b L (pureMark a L) false 0 (pureMark_length a L)]
  rfl

lemma getD_zipWith_and :
    ∀ (as bs : List Bool) (i : Nat), i < as.length → i < bs.length →
      (List.zipWith (fun a b => a && b) as bs).getD i true =
        ((as.getD i true) && (bs.getD i true)) := by
  intro as
  induction as with
  | nil => intro bs i h _; simp at h
  | cons a as ih =>
    intro bs i h1 h2
    cases bs with
    | nil => simp at h2
    | cons b bs =>
      cases i with
      | zero => rfl
      | succ i =>
        rw [List.zipWith_cons_cons, List.getD_cons_succ, List.getD_cons_succ,
          List.getD_cons_succ]
        exact ih bs i (by simpa using h1) (by simpa using h2)

/-- C6: the keep-mask for `[a, b]` is false at an index exactly when one
of the single-identifier masks is false there; detection for each
identifier runs against the original line sequence, so the removed index
set for `{a, b}` is the union of the two individual removed sets. -/
theorem c6_removed_set_is_union (L : List String) (a b : String) (i : Nat)
    (h : i < L.length) :
    (keepMask [a, b] L).getD i true = false ↔
      ((keepMask [a] L).getD i true = false ∨
        (keepMask [b] L).getD i true = false) := by
  rw [keepMask_pair, keepMask_singleton, keepMask_singleton,
    getD_zipWith_and _ _ i (by rw [pureMark_length]; exact h)
      (by rw [pureMark_length]; exact h)]
  cases (pureMark a L).getD i true <;> cases (pureMark b L).getD i true <;>
    simp

/-- Witness for C6 at a concrete buffer and index. -/
theorem c6_removed_set_is_union_witness :
    0 < (["\tasync a(): Promise<void> \x7b", "\tx"] : List String).length ∧
      ((keepMask ["a", "b"] ["\tasync a(): Promise<void> \x7b", "\tx"]).getD 0
          true = false ↔
        ((keepMask ["a"] ["\tasync a(): Promise<void> \x7b", "\tx"]).getD 0
            true = false ∨
          (keepMask ["b"] ["\tasync a(): Promise<void> \x7b", "\tx"]).getD 0
            true = false)) :=
  ⟨by decide,
    c6_removed_set_is_union ["\tasync a(): Promise<void> \x7b", "\tx"] "a" "b" 0
      (by decide)⟩

/-! ### Survivors never match, and idempotence

A pass only ever turns marks off, and it turns off the mark of every
line matching the opening pattern; hence every surviving line of the
output matches no requested identifier, and a second run is the
identity. -/

lemma markPass_matched_false (fn : String) (ls : List String) :
    ∀ (ks : List Bool) (inF : Bool) (bc : Int), ks.length = ls.length →
      List.Forall₂ (fun m l => isOpen fn l = true → m = false)
        (markPass fn inF bc (ls.zip ks)) ls := by
  induction ls with
  | nil =>
    intro ks inF bc h
    have hk : ks = [] := List.length_eq_zero.mp (by simpa using h)
    subst hk
    exact List.Forall₂.nil
  | cons l ls ih =>
    intro ks inF bc h
    cases ks with
    | nil => simp at h
    | cons k ks =>
      have h' : ks.length = ls.length := by simpa using h
      rw [List.zip_cons_cons]
      by_cases ho : isOpen fn l = true
      · simp only [markPass, if_pos ho]
        exact List.Forall₂.cons (fun _ => rfl) (ih ks true 0 h')
      · by_cases hf : inF = true
        · simp only [markPass, if_neg ho, if_pos hf]
          exact List.Forall₂.cons (fun _ => rfl) (ih ks _ _ h')
        · simp only [markPass, if_neg ho, if_neg hf]
          exact List.Forall₂.cons (fun hc => absurd hc ho) (ih ks inF bc h')

lemma markPass_le (fn : String) (ls : List String) :
    ∀ (ks : List Bool) (inF : Bool) (bc : Int), ks.length = ls.length →
      List.Forall₂ (fun m k => m = true → k = true)
        (markPass fn inF bc (ls.zip ks)) ks := by
  induction ls with
  | nil =>
    intro ks inF bc h
    have hk : ks = [] := List.length_eq_zero.mp (by simpa using h)
    subst hk
    exact List.Forall₂.nil
  | cons l ls ih =>
    intro ks inF bc h
    cases ks with
    | nil => simp at h
    | cons k ks =>
      have h' : ks.length = ls.length := by simpa using h
      rw [List.zip_cons_cons]
      by_cases ho : isOpen fn l = true
      · simp only [markPass, if_pos ho]
        exact List.Forall₂.cons (fun hc => absurd hc (by simp))
          (ih ks true 0 h')
      · by_cases hf : inF = true
        · simp only [markPass, if_neg ho, if_pos hf]
          exact List.Forall₂.cons (fun hc => absurd hc (by simp))
            (ih ks _ _ h')
        · simp only [markPass, if_neg ho, if_neg hf]
          exact List.Forall₂.cons (fun hc => hc) (ih ks inF bc h')

lemma leMask_trans :
    ∀ {a b c : List Bool},
      List.Forall₂ (fun m k => m = true → k = true) a b →
      List.Forall₂ (fun m k => m = true → k = true) b c →
      List.Forall₂ (fun m k => m = true → k = true) a c := by
  intro a b c hab
  induction hab generalizing c with
  | nil =>
    intro hbc
    cases hbc
    exact List.Forall₂.nil
  | cons h1 _ ih =>
    intro hbc
    cases hbc with
    | cons h2 hrest =>
      exact List.Forall₂.cons (fun hm => h2 (h1 hm)) (ih hrest)

lemma matched_false_mono (fn : String) :
    ∀ {b : List Bool} {ls : List String} {a : List Bool},
      List.Forall₂ (fun m l => isOpen fn l = true → m = false) b ls →
      List.Forall₂ (fun m k => m = true → k = true) a b →
      List.Forall₂ (fun m l => isOpen fn l = true → m = false) a ls := by
  intro b ls a hb
  induction hb generalizing a with
  | nil =>
    intro ha
    cases ha
    exact List.Forall₂.nil
  | cons h1 _ ih =>
    intro ha
    cases ha with
    | cons h2 hrest =>
      refine List.Forall₂.cons (fun ho => ?_) (ih hrest)
      rename_i m l _ _ a₀ _
      cases hm : a₀ with
      | false => rfl
      | true => exact absurd (h1 ho) (by simp [h2 hm])

lemma foldl_pass_length (L : List String) :
    ∀ (fns : List String) (ks : List Bool), ks.length = L.length →
      (List.foldl (fun ks fn => markPass fn false 0 (L.zip ks)) ks
          fns).length = L.length := by
  intro fns
  induction fns with
  | nil => intro ks h; simpa using h
  | cons g fns ih =>
    intro ks h
    exact ih _ (markPass_zip_length g L ks false 0 h)

lemma keepMask_length (fns : List String) (L : List String) :
    (keepMask fns L).length = L.length := by
  exact foldl_pass_length L fns _ (List.length_replicate _ _)

lemma foldl_pass_le (L : List String) :
    ∀ (fns : List String) (ks : List Bool), ks.length = L.length →
      List.Forall₂ (fun m k => m = true → k = true)
        (List.foldl (fun ks fn => markPass fn false 0 (L.zip ks)) ks fns)
        ks := by
  intro fns
  induction fns with
  | nil =>
    intro ks hlen
    clear hlen
    rw [List.foldl_nil]
    induction ks with
    | nil => exact List.Forall₂.nil
    | cons k ks ihk => exact List.Forall₂.cons (fun h => h) ihk
  | cons g fns ih =>
    intro ks h
    exact leMask_trans
      (ih _ (markPass_zip_length g L ks false 0 h))
      (markPass_le g L ks false 0 h)

lemma keepMask_matched_false (L : List String) (fns : List String)
    (fn : String) (hfn : fn ∈ fns) :
    List.Forall₂ (fun m l => isOpen fn l = true → m = false)
      (keepMask fns L) L := by
  suffices haux : ∀ (fns : List String) (ks : List Bool),
      ks.length = L.length → fn ∈ fns →
      List.Forall₂ (fun m l => isOpen fn l = true → m = false)
        (List.foldl (fun ks g => markPass g false 0 (L.zip ks)) ks fns) L by
    exact haux fns _ (List.length_replicate _ _) hfn
  intro fns
  induction fns with
  | nil => intro ks _ hmem; cases hmem
  | cons g fns ih =>
    intro ks h hmem
    rcases List.mem_cons.mp hmem with rfl | hmem'
    · exact matched_false_mono fn
        (markPass_matched_false fn L ks false 0 h)
        (foldl_pass_le L fns _ (markPass_zip_length fn L ks false 0 h))
    · exact ih _ (markPass_zip_length g L ks false 0 h) hmem'

lemma writeBack_prop (Q : String → Prop) :
    ∀ {ks : List Bool} {ls : List String},
      List.Forall₂ (fun k l => k = true → Q l) ks ls →
      ∀ l ∈ writeBack ls ks, Q l := by
  intro ks ls h
  induction h with
  | nil => intro l hl; simp [writeBack] at hl
  | cons h1 _ ih =>
    rename_i k l' ks' ls' _
    cases hk : k with
    | false =>
      subst hk
      rw [writeBack_cons_false]
      exact ih
    | true =>
      subst hk
      rw [writeBack_cons_true]
      intro x hx
      rcases List.mem_cons.mp hx with rfl | hx'
      · exact h1 rfl
      · exact ih x hx'

lemma remove_blocks_survivor_no_open (L : List String) (S : List String)
    (fn : String) (hfn : fn ∈ S) :
    ∀ l ∈ remove_blocks L S, isOpen fn l = false := by
  refine writeBack_prop (fun l => isOpen fn l = false) ?_
  refine (keepMask_matched_false L S fn hfn).imp ?_
  intro m l hml hm
  cases ho : isOpen fn l with
  | false => rfl
  | true => exact absurd hm (by simp [hml ho])

lemma noop_of_no_open (L : List String) (fn : String)
    (h : ∀ l ∈ L, isOpen fn l = false) : remove_blocks L [fn] = L := by
  show writeBack L (markPass fn false 0 (L.zip (List.replicate L.length true))) = L
  rw [markPass_id fn L _ 0 h, List.take_replicate, Nat.min_self,
    writeBack_replicate_true]

lemma keepMask_of_no_open (L : List String) (S : List String)
    (h : ∀ fn ∈ S, ∀ l ∈ L, isOpen fn l = false) :
    keepMask S L = List.replicate L.length true := by
  suffices haux : ∀ (S : List String),
      (∀ fn ∈ S, ∀ l ∈ L, isOpen fn l = false) →
      List.foldl (fun ks g => markPass g false 0 (L.zip ks))
        (List.replicate L.length true) S = List.replicate L.length true by
    exact haux S h
  intro S
  induction S with
  | nil => intro _; rfl
  | cons g S ih =>
    intro hS
    have hstep : markPass g false 0
        (L.zip (List.replicate L.length true)) =
        List.replicate L.length true := by
      rw [markPass_id g L _ 0 (hS g (by simp)), List.take_replicate,
        Nat.min_self]
    show List.foldl _ (markPass g false 0 (L.zip (List.replicate L.length true))) S = _
    rw [hstep]
    exact ih (fun fn hfn l hl => hS fn (by simp [hfn]) l hl)

/-- C5: `remove_blocks` is idempotent — a second run over its own output
with the same identifier list returns that output unchanged, because
every line matching an identifier's opening pattern was already dropped
by the first run. -/
theorem c5_remove_blocks_idempotent (L : List String) (S : List String) :
    remove_blocks (remove_blocks L S) S = remove_blocks L S := by
  have hno : ∀ fn ∈ S, ∀ l ∈ remove_blocks L S, isOpen fn l = false :=
    fun fn hfn => remove_blocks_survivor_no_open L S fn hfn
  show writeBack (remove_blocks L S) (keepMask S (remove_blocks L S)) = _
  rw [keepMask_of_no_open _ S hno, writeBack_replicate_true]

/-! ### Unterminated tracking drops every line to end-of-buffer -/

lemma unterminated_drops_suffix (fn : String) (l₁ : List String)
    (openL : String) (l₂ : List String)
    (h1 : isOpen fn openL = true) (h2 : neverCloses fn 0 l₂ = true) :
    remove_blocks (l₁ ++ openL :: l₂) [fn] = remove_blocks l₁ [fn] := by
  show writeBack (l₁ ++ openL :: l₂)
      (markPass fn false 0 ((l₁ ++ openL :: l₂).zip
        (List.replicate (l₁ ++ openL :: l₂).length true))) = _
  rw [List.length_append, List.replicate_add,
    markPass_append fn l₁ (List.replicate l₁.length true) (openL :: l₂)
      (List.replicate (openL :: l₂).length true) false 0
      (List.length_replicate _ _)]
  have hsecond : markPass fn (passState fn false 0 l₁).1
      (passState fn false 0 l₁).2
      ((openL :: l₂).zip (List.replicate (openL :: l₂).length true)) =
      false :: List.replicate
        ((l₂.zip (List.replicate l₂.length true)).length) false := by
    rw [List.length_cons, List.replicate_succ, List.zip_cons_cons]
    simp only [markPass, if_pos h1]
    rw [markPass_neverCloses fn l₂ _ 0 h2]
  rw [hsecond,
    writeBack_append l₁ _ _ _
      (markPass_zip_length fn l₁ _ false 0 (List.length_replicate _ _)),
    writeBack_cons_false, writeBack_replicate_false, List.append_nil]
  rfl

/-- Claim C7: the output of `remove_blocks` is a subsequence of the
input lines — every output line is an input line, surviving lines keep
their relative order, and no line is split or merged. -/
theorem c7_output_sublist_of_input (L : List String) (fns : List String) :
    (remove_blocks L fns).Sublist L :=
  writeBack_sublist L _

/-- Claim C9: an identifier whose opening pattern matches no line of the
buffer is a silent no-op — `remove_blocks` returns the buffer unchanged
and its type raises nothing. -/
theorem c9_noop_on_absent_identifier (L : List String) (fn : String)
    (h : ∀ l ∈ L, isOpen fn l = false) : remove_blocks L [fn] = L :=
  noop_of_no_open L fn h

/-- Witness for C9: the name `"doesNotExist"` matches nowhere in a
concrete two-line buffer and the buffer comes back unchanged. -/
theorem c9_noop_on_absent_identifier_witness :
    (∀ l ∈ (["\tasync other(): Promise<void> \x7b", "\tx"] : List String),
        isOpen "doesNotExist" l = false) ∧
      remove_blocks ["\tasync other(): Promise<void> \x7b", "\tx"]
          ["doesNotExist"] =
        ["\tasync other(): Promise<void> \x7b", "\tx"] :=
  ⟨by decide,
    c9_noop_on_absent_identifier ["\tasync other(): Promise<void> \x7b", "\tx"]
      "doesNotExist" (by decide)⟩

/-- Claim C10: once an opening line for the identifier is matched, if no
later line re-enters and closes — no line brings the running count to
zero while containing `"\t}"` — then the opening line and every line
after it are dropped from the output; the function's result is only the
filtered line list, so nothing is reported. -/
theorem c10_unterminated_drops_to_eof (fn : String) (l₁ : List String)
    (openL : String) (l₂ : List String)
    (h1 : isOpen fn openL = true) (h2 : neverCloses fn 0 l₂ = true) :
    remove_blocks (l₁ ++ openL :: l₂) [fn] = remove_blocks l₁ [fn] :=
  unterminated_drops_suffix fn l₁ openL l₂ h1 h2

/-- Witness for C10 on a concrete unterminated block. -/
theorem c10_unterminated_drops_to_eof_witness :
    isOpen "f" "\tasync f(): Promise<void> \x7b" = true ∧
      neverCloses "f" 0 ["\t\tx();"] = true ∧
      remove_blocks
          (["before"] ++ "\tasync f(): Promise<void> \x7b" :: ["\t\tx();"])
          ["f"] =
        remove_blocks ["before"] ["f"] :=
  ⟨by decide, by decide,
    c10_unterminated_drops_to_eof "f" ["before"]
      "\tasync f(): Promise<void> \x7b" ["\t\tx();"] (by decide) (by decide)⟩

/-- Claim C3, counterexample: a buffer opening a block for `"broken"`
with no closing marker is NOT returned unchanged — the code deletes the
opening line and everything after it, and its result carries no
UnterminatedBlock (or any other) outcome. -/
theorem c3_counterexample :
    remove_blocks ["\tasync broken(): Promise<void> \x7b", "\t\tx();"]
        ["broken"] = [] ∧
      (["\tasync broken(): Promise<void> \x7b", "\t\tx();"] : List String) ≠
        [] :=
  ⟨by decide, by decide⟩

/-- Claim C3 as amended: for a buffer whose prefix never matches the
identifier, followed by a matching opening line whose tracking never
closes, the call removes the opening line and every line to
end-of-buffer (returning just the prefix), and reports nothing — the
result is only the filtered line list. -/
theorem c3_amended_unterminated_removes_suffix (fn : String)
    (pre : List String) (openL : String) (post : List String)
    (hpre : ∀ l ∈ pre, isOpen fn l = false)
    (h1 : isOpen fn openL = true) (h2 : neverCloses fn 0 post = true) :
    remove_blocks (pre ++ openL :: post) [fn] = pre := by
  rw [unterminated_drops_suffix fn pre openL post h1 h2]
  exact noop_of_no_open pre fn hpre

/-- Witness for the amended C3 on a concrete unterminated block. -/
theorem c3_amended_unterminated_removes_suffix_witness :
    (∀ l ∈ (["keep"] : List String), isOpen "broken" l = false) ∧
      isOpen "broken" "\tasync broken(): Promise<void> \x7b" = true ∧
      neverCloses "broken" 0 ["\t\tx();"] = true ∧
      remove_blocks
          (["keep"] ++ "\tasync broken(): Promise<void> \x7b" :: ["\t\tx();"])
          ["broken"] = ["keep"] :=
  ⟨by decide, by decide, by decide,
    c3_amended_unterminated_removes_suffix "broken" ["keep"]
      "\tasync broken(): Promise<void> \x7b" ["\t\tx();"] (by decide)
      (by decide) (by decide)⟩

/-- Claim C1 (code-bug evaluation): a well-formed block with an inner
nested pair — body brace counts balanced, closing line `"\t}"` present —
is truncated at the first inner closing line: the count (which never
included the opening line's brace) returns to zero at `"\t\t}"`, which
contains `"\t}"`, so marking stops there and the block's true closing
line `"\t}"` survives in the output. -/
theorem c1_truncated_at_inner_close :
    remove_blocks
        ["\tasync f(): Promise<void> \x7b", "\t\tif (x) \x7b", "\t\t\ty();",
         "\t\t\x7d", "\t\x7d", "\tafter"] ["f"] =
      ["\t\x7d", "\tafter"] := by decide

/-- Claim C2 (code-bug evaluation): with well-formed blocks for `"sync"`
and `"syncAll"` both present, removing only `"sync"` removes every line
of `"syncAll"`'s block as well: the opening pattern correctly skips the
longer name, but the pass never leaves `"sync"`'s block (the count is
`-1` at its closing line) and overruns to end-of-buffer. -/
theorem c2_prefix_identifier_overruns :
    remove_blocks
        ["\tasync sync(): Promise<void> \x7b", "\t\ta();", "\t\x7d",
         "\tasync syncAll(): Promise<void> \x7b", "\t\tb();", "\t\x7d"]
        ["sync"] = [] := by decide

/-- Claim C4 (code-bug evaluation): the running count starts at zero on
the opening line instead of at that line's own brace contribution, so a
minimal block `{ opening, "\t}" }` reaches count `-1` at its closing
line, never ends, and drags the following line into the removal. -/
theorem c4_opening_brace_not_counted :
    remove_blocks ["\tasync f(): Promise<void> \x7b", "\t\x7d", "\tkeep"]
      ["f"] = [] := by decide

/-- Claim C8, counterexample: on the spec's 8-line example buffer the
code returns neither lines 1–3 for `{"b"}` nor the empty sequence for
`{"a","b"}` — no example line contains the opening pattern
tab + `"async "` + name + `"("`. -/
theorem c8_counterexample :
    ¬(remove_blocks
          ["function a() \x7b", "  doThing();", "\x7d", "function b() \x7b",
           "  if (x) \x7b", "    y();", "  \x7d", "\x7d"] ["b"] =
        ["function a() \x7b", "  doThing();", "\x7d"] ∧
      remove_blocks
          ["function a() \x7b", "  doThing();", "\x7d", "function b() \x7b",
           "  if (x) \x7b", "    y();", "  \x7d", "\x7d"] ["a", "b"] = []) := by
  decide

/-- Claim C8 as amended: on the spec's 8-line example buffer the code is
a no-op for both `{"b"}` and `{"a","b"}`, because no line matches the
hardcoded opening signature tab + `"async "` + name + `"("`. -/
theorem c8_amended_example_unchanged :
    remove_blocks
        ["function a() \x7b", "  doThing();", "\x7d", "function b() \x7b",
         "  if (x) \x7b", "    y();", "  \x7d", "\x7d"] ["b"] =
      ["function a() \x7b", "  doThing();", "\x7d", "function b() \x7b",
       "  if (x) \x7b", "    y();", "  \x7d", "\x7d"] ∧
    remove_blocks
        ["function a() \x7b", "  doThing();", "\x7d", "function b() \x7b",
         "  if (x) \x7b", "    y();", "  \x7d", "\x7d"] ["a", "b"] =
      ["function a() \x7b", "  doThing();", "\x7d", "function b() \x7b",
       "  if (x) \x7b", "    y();", "  \x7d", "\x7d"] :=
  ⟨by decide, by decide⟩

end LettaObsidian
